import Mathlib

/-!
Verification of the spacetab-io/http-go HTTP service runtime against its
natural-language specification.  The Go sources are shallowly embedded:
machine integers are `Nat` with explicit `% 2 ^ 64` where Go's `uint64`
wraps, byte strings are `List Nat`, and fallible operations return
`Option`.  Each section names the Go file and function it embeds.
-/

namespace HttpGo

namespace Shutdown

/-- Modulus of Go's `uint64` (the type of `gracefulListener.connsCount`
and `gracefulListener.shutdown` in `fhserver/shutdown.go`). -/
def U64 : Nat := 2 ^ 64

/-- Events acting on the open-connection counter of `gracefulListener`:
a successful `Accept` (which runs `atomic.AddUint64(&ln.connsCount, 1)`,
shutdown.go line 49) and a connection close (whose hook `closeConn` runs
`atomic.AddUint64(&ln.connsCount, ^uint64(0))`, shutdown.go line 94). -/
inductive Ev where
  | accept
  | close
deriving DecidableEq

/-- One atomic update of `connsCount` as executed by the Go code:
`Accept` adds `1`, `closeConn` adds `^uint64(0) = 2^64 - 1`, both in
`uint64` wrap-around arithmetic. -/
def step (c : Nat) : Ev → Nat
  | .accept => (c + 1) % U64
  | .close => (c + (U64 - 1)) % U64

/-- The counter value after a sequence of accept / close events,
starting from `c` (the listener is created with `connsCount = 0`). -/
def run (c : Nat) : List Ev → Nat
  | [] => c
  | e :: t => run (step c e) t

/-- Number of successful accepts in a trace. -/
def accepts (t : List Ev) : Nat := t.count .accept

/-- Number of connection closes in a trace. -/
def closes (t : List Ev) : Nat := t.count .close

/-- A trace is paired when every close is matched by a prior successful
accept: walking the trace with a running balance (accepts so far minus
closes so far, started at `bal`), each close finds a positive balance. -/
def pairedFrom (bal : Nat) : List Ev → Bool
  | [] => true
  | .accept :: t => pairedFrom (bal + 1) t
  | .close :: t => decide (0 < bal) && pairedFrom (bal - 1) t

theorem pairedFrom_append (p q : List Ev) :
    ∀ bal, pairedFrom bal (p ++ q) = true → pairedFrom bal p = true := by
  induction p with
  | nil => intro bal _; rfl
  | cons e t ih =>
    intro bal h
    cases e with
    | accept => exact ih _ h
    | close =>
      simp only [List.cons_append, pairedFrom, Bool.and_eq_true] at h ⊢
      exact ⟨h.1, ih _ h.2⟩

theorem run_eq_of_paired (t : List Ev) :
    ∀ bal, pairedFrom bal t = true → bal + accepts t < U64 →
      closes t ≤ bal + accepts t ∧ run bal t = bal + accepts t - closes t := by
  induction t with
  | nil =>
    intro bal _ _
    simp [accepts, closes, run]
  | cons e t ih =>
    intro bal hp hb
    cases e with
    | accept =>
      have ha : accepts (Ev.accept :: t) = accepts t + 1 := by
        simp [accepts, List.count_cons]
      have hc : closes (Ev.accept :: t) = closes t := by
        simp [closes, List.count_cons]
      have hb' : (bal + 1) + accepts t < U64 := by omega
      have hp' : pairedFrom (bal + 1) t = true := hp
      have hstep : step bal Ev.accept = bal + 1 := by
        have : bal + 1 < U64 := by omega
        simp [step, Nat.mod_eq_of_lt this]
      have := ih (bal + 1) hp' hb'
      refine ⟨by omega, ?_⟩
      rw [run, hstep, ha, hc]
      omega
    | close =>
      simp only [pairedFrom, Bool.and_eq_true, decide_eq_true_eq] at hp
      obtain ⟨hbal, hp'⟩ := hp
      have ha : accepts (Ev.close :: t) = accepts t := by
        simp [accepts, List.count_cons]
      have hc : closes (Ev.close :: t) = closes t + 1 := by
        simp [closes, List.count_cons]
      have hb' : (bal - 1) + accepts t < U64 := by omega
      have hstep : step bal Ev.close = bal - 1 := by
        have h1 : bal + (U64 - 1) = (bal - 1) + U64 := by
          have : 0 < U64 := Nat.pos_pow_of_pos 64 (by omega)
          omega
        have h2 : bal - 1 < U64 := by omega
        simp [step, h1, Nat.add_mod_right, Nat.mod_eq_of_lt h2]
      have := ih (bal - 1) hp' hb'
      refine ⟨by omega, ?_⟩
      rw [run, hstep, ha, hc]
      omega

/-- C1: for every sequence of Accept calls and connection-close calls in
which each close is paired with a prior successful Accept, the
open-connection counter never underflows: at every prefix of the trace
the counter equals the exact (non-negative) difference between the
number of accepts and the number of closes, with Accept contributing `+1`
and each close `-1` — the `uint64` arithmetic never wraps below zero. -/
theorem connsCount_never_negative (t p : List Ev)
    (hpair : pairedFrom 0 t = true) (hp : p <+: t) (hbound : accepts t < U64) :
    closes p ≤ accepts p ∧ run 0 p = accepts p - closes p := by
  obtain ⟨q, hq⟩ := hp
  have hpairp : pairedFrom 0 p = true := pairedFrom_append p q 0 (by rw [hq]; exact hpair)
  have hap : accepts p ≤ accepts t := by
    have : p <+: t := ⟨q, hq⟩
    exact List.Sublist.count_le this.sublist _
  have := run_eq_of_paired p 0 hpairp (by omega)
  simpa using this

/-- Witness for C1 at the concrete trace accept, accept, close, close
and its prefix accept, accept, close. -/
theorem connsCount_never_negative_witness :
    closes [Ev.accept, Ev.accept, Ev.close] ≤ accepts [Ev.accept, Ev.accept, Ev.close] ∧
      run 0 [Ev.accept, Ev.accept, Ev.close] =
        accepts [Ev.accept, Ev.accept, Ev.close] - closes [Ev.accept, Ev.accept, Ev.close] :=
  connsCount_never_negative [Ev.accept, Ev.accept, Ev.close, Ev.close]
    [Ev.accept, Ev.accept, Ev.close]
    (by rfl) ⟨[Ev.close], rfl⟩
    (by show (2 : Nat) < 2 ^ 64; norm_num)

/-! Interleaving model of `waitForZeroConns` (shutdown.go lines 72-91)
racing against `closeConn` (lines 93-99).  Each atomic instruction of
the Go code is one step; a schedule picks which thread runs next.
Thread id 0 is the goroutine executing `Close`/`waitForZeroConns`;
thread id `i + 1` is the goroutine executing `closeConn` for the `i`-th
open connection.  `doneCloses` counts how many times the statement
`close(ln.done)` (lines 76 and 97) has executed; in Go, executing it a
second time panics. -/

/-- Shared state of the listener plus the program counters of the
threads.  Waiter pcs: 0 = before `atomic.AddUint64(&ln.shutdown, 1)`,
1 = before `atomic.LoadUint64(&ln.connsCount)`, 2 = finished the check
(either returned nil after `close(ln.done)` or sits in the `select`,
which never executes `close`).  Closer pcs: 0 = before the atomic
decrement, 1 = holding the decremented value `connsCount` (second
component), before the `shutdown != 0 && connsCount == 0` check,
2 = finished. -/
structure GLState where
  connsCount : Nat
  shutdown : Nat
  doneCloses : Nat
  waiterPC : Nat
  closers : List (Nat × Nat)
deriving DecidableEq

/-- One scheduled step: run the next atomic instruction of thread
`tid` (0 = waiter, `i + 1` = closer `i`); a finished or absent thread
leaves the state unchanged. -/
def glStep (s : GLState) (tid : Nat) : GLState :=
  if tid = 0 then
    match s.waiterPC with
    | 0 => { s with shutdown := (s.shutdown + 1) % U64, waiterPC := 1 }
    | 1 =>
      if s.connsCount = 0 then
        { s with doneCloses := s.doneCloses + 1, waiterPC := 2 }
      else
        { s with waiterPC := 2 }
    | _ => s
  else
    match s.closers.get? (tid - 1) with
    | none => s
    | some (pc, v) =>
      match pc with
      | 0 =>
        let v' := (s.connsCount + (U64 - 1)) % U64
        { s with connsCount := v', closers := s.closers.set (tid - 1) (1, v') }
      | 1 =>
        if s.shutdown ≠ 0 ∧ v = 0 then
          { s with doneCloses := s.doneCloses + 1, closers := s.closers.set (tid - 1) (2, v) }
        else
          { s with closers := s.closers.set (tid - 1) (2, v) }
      | _ => s

/-- Run a schedule (list of thread ids) from a state. -/
def glRun (s : GLState) : List Nat → GLState
  | [] => s
  | tid :: sched => glRun (glStep s tid) sched

/-- Initial state when `Close` is called with `n` connections still
open: the counter holds `n`, shutdown has not started, the done channel
has not been closed, and each of the `n` closers is about to run. -/
def glInit (n : Nat) : GLState :=
  { connsCount := n
    shutdown := 0
    doneCloses := 0
    waiterPC := 0
    closers := List.replicate n (0, 0) }

/-- C2: counterexample interleaving.  With one open connection, run the
waiter's `atomic.AddUint64(&ln.shutdown, 1)`, then the whole of
`closeConn` (decrement to zero, observe `shutdown != 0`, execute
`close(ln.done)`), then the waiter's `atomic.LoadUint64(&ln.connsCount)`,
which reads 0 and executes `close(ln.done)` again: the one-shot done
channel is closed twice (a Go runtime panic), so no single-fire guard
protects it. -/
theorem done_channel_double_close :
    (glRun (glInit 1) [0, 1, 1, 0]).doneCloses = 2 := by rfl

/-! Outcome model of `gracefulListener.Close` (shutdown.go lines 64-91)
and of the shutdown branch of `Server.Run` (fhserver.go lines 208-235).
Real time is abstracted: the `select` between `<-ln.done` and
`<-time.After(ln.maxWaitTime)` is decided by whether the last open
connection closes strictly before the drain timeout, which is what makes
the done channel fire first. -/

/-- Errors surfaced by the shutdown path: `pkgErr.ErrFHServerShutdown`
(errors/vars.go, "cannot complete graceful shutdown") returned by
`waitForZeroConns` on drain timeout, and the wrapped error returned by
`Close` when the inner listener's `Close` fails. -/
inductive GoErr where
  | errFHServerShutdown
  | innerCloseErr
deriving DecidableEq

/-- How `waitForZeroConns` returned. -/
inductive WaitOutcome where
  | immediate
  | viaDone
  | timedOut
deriving DecidableEq

/-- Branch structure of `waitForZeroConns` (lines 72-91): after setting
the shutdown flag, if the loaded `connsCount` is 0 it runs
`close(ln.done)` and returns nil without entering the `select`
(`immediate`); otherwise it blocks in the `select` until either the done
channel fires (`viaDone`, returns nil) or the timer fires (`timedOut`,
logs and returns `ErrFHServerShutdown`). -/
def waitForZeroConns (connsCount : Nat) (doneBeforeTimeout : Bool) : WaitOutcome :=
  if connsCount = 0 then .immediate
  else if doneBeforeTimeout then .viaDone
  else .timedOut

/-- Error value returned by `waitForZeroConns` for each outcome. -/
def waitResult : WaitOutcome → Option GoErr
  | .immediate => none
  | .viaDone => none
  | .timedOut => some .errFHServerShutdown

/-- Whether the outcome's branch executed `close(ln.done)` itself
(only the `connsCount == 0` fast path does, line 76). -/
def waitClosesDone : WaitOutcome → Bool
  | .immediate => true
  | _ => false

/-- Whether the outcome's branch logged the drain-timeout error
(lines 85-87: only the timer branch logs, and only when a logger is
attached). -/
def waitLogsTimeout (logPresent : Bool) : WaitOutcome → Bool
  | .timedOut => logPresent
  | _ => false

/-- How `gracefulListener.Close` returned. -/
inductive CloseOutcome where
  | innerError
  | waited (w : WaitOutcome)
deriving DecidableEq

/-- Branch structure of `Close` (lines 64-70): it first closes the inner
listener; on failure it returns the wrapped error at once, otherwise it
runs `waitForZeroConns`. -/
def close (innerOk : Bool) (connsCount : Nat) (doneBeforeTimeout : Bool) : CloseOutcome :=
  if innerOk then .waited (waitForZeroConns connsCount doneBeforeTimeout)
  else .innerError

/-- Error value returned by `Close` for each outcome. -/
def closeResult : CloseOutcome → Option GoErr
  | .innerError => some .innerCloseErr
  | .waited w => waitResult w

/-- The done channel fires before the drain timeout exactly when every
open connection closes strictly before `maxWaitTime` elapses (the
connection that brings the counter to zero is the one that runs
`close(ln.done)`). -/
def allCloseBefore (closeTimes : List Nat) (maxWaitTime : Nat) : Bool :=
  closeTimes.all (fun t => t < maxWaitTime)

/-- What the `case <-osSignals` branch of `Server.Run` does with the
value returned by `graceful.Close()` (fhserver.go lines 218-235): a
non-nil error is logged and `break signalLoop` makes `Run` return; a nil
error logs the graceful-stop message and re-enters the loop. Neither
path panics or crashes the process. -/
inductive RunStep where
  | breakLoop
  | loopAgain
deriving DecidableEq

/-- Branch taken by `Run` on the result of `graceful.Close()`. -/
def runSignalCase (closeErr : Option GoErr) : RunStep :=
  match closeErr with
  | some _ => .breakLoop
  | none => .loopAgain

/-- C3: with `N = closeTimes.length` open connections and drain timeout
`T`: if every connection closes before `T` the `Close` call returns nil
(clean shutdown); if the counter is still non-zero when `T` elapses
(some connection closes at or after `T`), `Close` returns
`ErrFHServerShutdown`, the condition is logged (when a logger is
attached), and `Server.Run`'s signal branch breaks the loop so `Run`
returns rather than crashing. -/
theorem close_drain_outcomes (closeTimes : List Nat) (T : Nat) :
    (allCloseBefore closeTimes T = true →
      closeResult (close true closeTimes.length (allCloseBefore closeTimes T)) = none) ∧
    (allCloseBefore closeTimes T = false → closeTimes.length ≠ 0 →
      closeResult (close true closeTimes.length (allCloseBefore closeTimes T)) =
          some .errFHServerShutdown ∧
        waitLogsTimeout true (waitForZeroConns closeTimes.length
          (allCloseBefore closeTimes T)) = true ∧
        runSignalCase (closeResult (close true closeTimes.length
          (allCloseBefore closeTimes T))) = .breakLoop) := by
  constructor
  · intro h
    rw [h]
    by_cases hn : closeTimes.length = 0 <;>
      simp [close, waitForZeroConns, closeResult, waitResult, hn]
  · intro h hn
    rw [h]
    refine ⟨?_, ?_, ?_⟩ <;>
      simp [close, waitForZeroConns, closeResult, waitResult, waitLogsTimeout,
        runSignalCase, hn]

/-- Witness for C3: two connections closing at times 1 and 2 with
timeout 5 drain cleanly; two connections closing at times 1 and 7 with
timeout 5 produce the drain-timeout error, the log entry, and the loop
break. -/
theorem close_drain_outcomes_witness :
    (closeResult (close true [1, 2].length (allCloseBefore [1, 2] 5)) = none) ∧
    (closeResult (close true [1, 7].length (allCloseBefore [1, 7] 5)) =
        some .errFHServerShutdown ∧
      waitLogsTimeout true (waitForZeroConns [1, 7].length (allCloseBefore [1, 7] 5)) = true ∧
      runSignalCase (closeResult (close true [1, 7].length (allCloseBefore [1, 7] 5))) =
        .breakLoop) :=
  ⟨(close_drain_outcomes [1, 2] 5).1 (by decide),
   (close_drain_outcomes [1, 7] 5).2 (by decide) (by decide)⟩

/-- C4: when `Close` runs with the open-connection counter at zero and
the inner listener closes without error, it takes the fast path: the
outcome is `immediate` (no blocking on the done channel or the drain
timer), the completion signal is fired by that branch itself, and the
returned error is nil. -/
theorem close_zero_conns_immediate (doneBeforeTimeout : Bool) :
    close true 0 doneBeforeTimeout = .waited .immediate ∧
      waitClosesDone (waitForZeroConns 0 doneBeforeTimeout) = true ∧
      closeResult (close true 0 doneBeforeTimeout) = none := by
  refine ⟨?_, ?_, ?_⟩ <;> simp [close, waitForZeroConns, closeResult, waitResult, waitClosesDone]

end Shutdown

namespace Middleware

/-! Deep embedding of the handler chain built by `Server.SetRouter`
(fhserver.go lines 97-131).  Each constructor is one wrapper applied to
the running value of the local variable `h`; `app` is the router's own
handler `r.Handler`. -/

/-- Syntactic shape of the installed `fasthttp.RequestHandler`:
`compress` is `fasthttp.CompressHandler`, `decompress` is
`DecompressRequestHandler`, `recovery` is `recoveryMiddleware`,
`logging` is `loggingMiddleware`, `cors` is
`withCors.CorsMiddleware`. -/
inductive Handler where
  | app
  | compress (inner : Handler)
  | decompress (inner : Handler)
  | recovery (inner : Handler)
  | logging (inner : Handler)
  | cors (inner : Handler)
deriving DecidableEq

/-- The sequence of reassignments of `h` in `SetRouter`: start from
`r.Handler`; when `UseCompression()` wrap in `CompressHandler` and then
in `DecompressRequestHandler`; wrap in `recoveryMiddleware`; wrap in
`loggingMiddleware`; when `CORSEnabled()` wrap in `CorsMiddleware`; the
result is stored into `httpServer.Handler`. -/
def setRouterHandler (useCompression corsEnabled : Bool) : Handler :=
  let h := Handler.app
  let h := if useCompression then Handler.decompress (Handler.compress h) else h
  let h := Handler.recovery h
  let h := Handler.logging h
  if corsEnabled then Handler.cors h else h

/-- C5 counterexample: with compression and CORS enabled, the installed
handler is not the composition claimed by the spec (application handler
← decompression ← recovery ← logging ← response compression ← CORS):
response compression does not sit between logging and CORS. -/
theorem setRouter_order_counterexample :
    setRouterHandler true true ≠
      Handler.cors (Handler.compress (Handler.logging
        (Handler.recovery (Handler.decompress Handler.app)))) := by
  decide

/-- C5 (amended): the installed handler is, innermost to outermost,
the application handler, then (when compression is enabled) response
compression and request decompression — both guarded by the same flag,
with compression innermost — then panic recovery, then logging, then
(when enabled) CORS enforcement outermost. -/
theorem setRouter_order (useCompression corsEnabled : Bool) :
    setRouterHandler useCompression corsEnabled =
      (if corsEnabled then Handler.cors else id)
        (Handler.logging (Handler.recovery
          (if useCompression then Handler.decompress (Handler.compress Handler.app)
           else Handler.app))) := by
  cases useCompression <;> cases corsEnabled <;> rfl

/-! Behavioural model of `DecompressRequestHandler` and
`hasContentEncodingBytes` (fhserver.go lines 49-89).  Byte strings are
`List Nat`. -/

/-- Helper for `bytesIndex`, recursing over the haystack. -/
def bytesIndexAux (pat : List Nat) : List Nat → Option Nat
  | [] => if pat.isEmpty then some 0 else none
  | a :: t =>
    if pat.isPrefixOf (a :: t) then some 0
    else (bytesIndexAux pat t).map (· + 1)

/-- Model of Go's `bytes.Index(s, pat)`: index of the first occurrence
of `pat` in `s`, `none` standing for Go's `-1`. -/
def bytesIndex (s pat : List Nat) : Option Nat := bytesIndexAux pat s

/-- Model of `hasContentEncodingBytes` (fhserver.go lines 49-68) with
`ae` the bytes of the request's Content-Encoding header: find
`encoding` in `ae`; fail if absent; fail if the byte right after the
occurrence exists and is not a comma; succeed if the occurrence starts
the header; otherwise require the byte before it to be a space. -/
def hasContentEncodingBytes (ae encoding : List Nat) : Bool :=
  match bytesIndex ae encoding with
  | none => false
  | some n =>
    let b := ae.drop (n + encoding.length)
    if 0 < b.length ∧ b.headD 0 ≠ 44 then false
    else if n = 0 then true
    else decide (ae.getD (n - 1) 0 = 32)

/-- Bytes of the literal "gzip". -/
def gzipTag : List Nat := [103, 122, 105, 112]

/-- Bytes of the literal "deflate". -/
def deflateTag : List Nat := [100, 101, 102, 108, 97, 116, 101]

/-- Bytes of the literal "br". -/
def brTag : List Nat := [98, 114]

/-- Request state that `DecompressRequestHandler` reads and writes:
the Content-Encoding header value and the request body. -/
structure DCtx where
  contentEncoding : List Nat
  body : List Nat
deriving DecidableEq

/-- Body assigned by `DecompressRequestHandler` (fhserver.go lines
70-89) before it calls the inner handler.  `gunzip`, `inflate` and
`unbrotli` model fasthttp's `Request.BodyGunzip`, `Request.BodyInflate`
and `Request.BodyUnbrotli`: each decodes the request's original body
and returns `none` on a decode error, in which case the Go helper
returns a nil slice which `b, _ = ...` assigns to `b` with the error
discarded — so `none` contributes the empty byte string.  Each of the
three `if` blocks reassigns `b` from the original `ctx.Request.Body()`,
so a later matching encoding overwrites the result of an earlier
one. -/
def decompressedBody (gunzip inflate unbrotli : List Nat → Option (List Nat))
    (ctx : DCtx) : List Nat :=
  let b := ctx.body
  let b := if hasContentEncodingBytes ctx.contentEncoding gzipTag
           then (gunzip ctx.body).getD [] else b
  let b := if hasContentEncodingBytes ctx.contentEncoding deflateTag
           then (inflate ctx.body).getD [] else b
  let b := if hasContentEncodingBytes ctx.contentEncoding brTag
           then (unbrotli ctx.body).getD [] else b
  b

/-- Model of `DecompressRequestHandler h`: set the request body to
`decompressedBody` and delegate to `h`. -/
def DecompressRequestHandler (gunzip inflate unbrotli : List Nat → Option (List Nat))
    (h : DCtx → DCtx) : DCtx → DCtx :=
  fun ctx => h { ctx with body := decompressedBody gunzip inflate unbrotli ctx }

/-- Bytes of the literal json body in the spec's scenario. -/
def jsonBody : List Nat := [123, 34, 97, 34, 58, 49, 125]

/-- C6 counterexample: with Content-Encoding "gzip, deflate", a gzip
decoder that succeeds with `[9, 9]` and a deflate decoder that fails,
the body forwarded to the inner handler is `[]` — not the first
matching encoding's decode result `[9, 9]`: the middleware lets a later
matching encoding overwrite the first one. -/
theorem decompress_first_match_counterexample :
    decompressedBody (fun _ => some [9, 9]) (fun _ => none) (fun _ => none)
        ⟨[103, 122, 105, 112, 44, 32, 100, 101, 102, 108, 97, 116, 101], [1, 2, 3]⟩ = [] ∧
      ([] : List Nat) ≠ [9, 9] := by
  decide

/-- C6 (amended): the middleware checks gzip, deflate, brotli in that
order against the Content-Encoding header, each matching check decoding
the original body, with the last match determining the forwarded body;
when gzip is the only matching encoding and its decode succeeds, the
inner handler receives the gzip-decoded body — in particular a request
whose gzip body decodes to the literal bytes of the scenario reaches
the application handler decoded. -/
theorem decompress_gzip_only (gunzip inflate unbrotli : List Nat → Option (List Nat))
    (ctx : DCtx) (d : List Nat)
    (hg : hasContentEncodingBytes ctx.contentEncoding gzipTag = true)
    (hd : hasContentEncodingBytes ctx.contentEncoding deflateTag = false)
    (hb : hasContentEncodingBytes ctx.contentEncoding brTag = false)
    (hgz : gunzip ctx.body = some d) (h : DCtx → DCtx) :
    DecompressRequestHandler gunzip inflate unbrotli h ctx =
      h { ctx with body := d } := by
  simp [DecompressRequestHandler, decompressedBody, hg, hd, hb, hgz]

/-- Witness for C6 at the spec's scenario: Content-Encoding "gzip" and
a gzip decoder mapping the stand-in compressed bytes `[31, 139, 8, 0]`
to the scenario's json body. -/
theorem decompress_gzip_only_witness :
    DecompressRequestHandler
        (fun b => if b = [31, 139, 8, 0] then some jsonBody else none)
        (fun _ => none) (fun _ => none) id ⟨gzipTag, [31, 139, 8, 0]⟩ =
      id { DCtx.mk gzipTag [31, 139, 8, 0] with body := jsonBody } :=
  decompress_gzip_only _ _ _ _ jsonBody (by decide) (by decide) (by decide) (by decide) id

/-- C7 counterexample: with Content-Encoding "gzip" and a gzip decoder
that fails on the body `[1, 2, 3]`, the body forwarded to the inner
handler is `[]` — not the original, unmodified body `[1, 2, 3]`. -/
theorem decompress_decode_failure_counterexample :
    decompressedBody (fun _ => none) (fun _ => none) (fun _ => none)
        ⟨gzipTag, [1, 2, 3]⟩ = [] ∧
      ([] : List Nat) ≠ [1, 2, 3] := by
  decide

/-- C7 (amended): when the Content-Encoding header matches gzip only
and the gzip decode of the body fails, the middleware swallows the
error (it still delegates normally) but forwards the decoder's nil
result — the empty body — to the inner handler, not the original
body. -/
theorem decompress_decode_failure (gunzip inflate unbrotli : List Nat → Option (List Nat))
    (ctx : DCtx)
    (hg : hasContentEncodingBytes ctx.contentEncoding gzipTag = true)
    (hd : hasContentEncodingBytes ctx.contentEncoding deflateTag = false)
    (hb : hasContentEncodingBytes ctx.contentEncoding brTag = false)
    (hgz : gunzip ctx.body = none) (h : DCtx → DCtx) :
    DecompressRequestHandler gunzip inflate unbrotli h ctx =
      h { ctx with body := [] } := by
  simp [DecompressRequestHandler, decompressedBody, hg, hd, hb, hgz]

/-- Witness for C7: a failing gzip decoder on a request with
Content-Encoding "gzip" and body `[1, 2, 3]`. -/
theorem decompress_decode_failure_witness :
    DecompressRequestHandler (fun _ => none) (fun _ => none) (fun _ => none)
        id ⟨gzipTag, [1, 2, 3]⟩ =
      id { DCtx.mk gzipTag [1, 2, 3] with body := [] } :=
  decompress_decode_failure _ _ _ _ (by decide) (by decide) (by decide) (by decide) id

/-! Model of `recoveryMiddleware` (recovery.go lines 9-20).  A handler
either returns normally with a final response state, or raises a fault
(Go panic) carrying the response state at the moment of the panic and a
non-nil recovered value. -/

/-- Response state of the `fasthttp.RequestCtx` as far as
`recoveryMiddleware` manipulates it. -/
structure Resp where
  statusCode : Int
  contentType : List Nat
  body : List Nat
deriving DecidableEq

/-- Result of running a handler on a request context. -/
inductive HRes where
  | ok (r : Resp)
  | panicked (r : Resp) (v : Nat)
deriving DecidableEq

/-- Bytes of fasthttp's default content type "text/plain; charset=utf-8"
installed by `RequestCtx.Error`. -/
def plainTextType : List Nat :=
  [116, 101, 120, 116, 47, 112, 108, 97, 105, 110, 59, 32, 99, 104, 97,
   114, 115, 101, 116, 61, 117, 116, 102, 45, 56]

/-- Model of fasthttp's `ctx.Error(msg, statusCode)` as called by the
recovery middleware: reset the response, set the status code, the
default text content type, and the message as body. -/
def ctxError (msg : List Nat) (statusCode : Int) : Resp :=
  { statusCode := statusCode, contentType := plainTextType, body := msg }

/-- Bytes of the literal "recover", the fixed message passed to
`ctx.Error` in recovery.go line 13. -/
def recoverMsg : List Nat := [114, 101, 99, 111, 118, 101, 114]

/-- Model of `recoveryMiddleware` (recovery.go lines 9-20): run the
inner handler; on a normal return pass its result through; when the
deferred `recover()` observes a non-nil fault, call
`ctx.Error("recover", http.StatusInternalServerError)` and return
normally. -/
def recoveryMiddleware (next : Resp → HRes) : Resp → HRes :=
  fun ctx =>
    match next ctx with
    | .ok r => .ok r
    | .panicked _ _ => .ok (ctxError recoverMsg 500)

/-- C8: for every inner handler and request, the recovery middleware
returns normally (the fault never re-raises past it), and whenever the
inner chain raises a fault the result is the fixed internal-error
response: `ctx.Error("recover", 500)`, whose status code is 500. -/
theorem recoveryMiddleware_contains_faults (next : Resp → HRes) (ctx : Resp) :
    (∃ r, recoveryMiddleware next ctx = .ok r) ∧
      (∀ r v, next ctx = .panicked r v →
        recoveryMiddleware next ctx = .ok (ctxError recoverMsg 500) ∧
          (ctxError recoverMsg 500).statusCode = 500) := by
  constructor
  · cases h : next ctx with
    | ok r => exact ⟨r, by simp [recoveryMiddleware, h]⟩
    | panicked r v => exact ⟨ctxError recoverMsg 500, by simp [recoveryMiddleware, h]⟩
  · intro r v h
    exact ⟨by simp [recoveryMiddleware, h], rfl⟩

/-- Witness for C8: a handler that always panics, applied to a request
with an empty 200 response. -/
theorem recoveryMiddleware_contains_faults_witness :
    (∃ r, recoveryMiddleware (fun c => .panicked c 7) ⟨200, [], []⟩ = .ok r) ∧
      recoveryMiddleware (fun c => .panicked c 7) ⟨200, [], []⟩ =
          .ok (ctxError recoverMsg 500) ∧
        (ctxError recoverMsg 500).statusCode = 500 :=
  ⟨(recoveryMiddleware_contains_faults (fun c => .panicked c 7) ⟨200, [], []⟩).1,
   (recoveryMiddleware_contains_faults (fun c => .panicked c 7) ⟨200, [], []⟩).2
     ⟨200, [], []⟩ 7 rfl⟩

/-! Model of `loggingMiddleware` (logger.go lines 13-41). -/

/-- Log severities used by the middleware (zapcore levels). -/
inductive LogLevel where
  | debug
  | warn
  | error
deriving DecidableEq

/-- Request/response state read by the logging middleware. -/
structure LCtx where
  method : List Nat
  requestURI : List Nat
  remoteIP : List Nat
  userAgent : List Nat
  statusCode : Int
deriving DecidableEq

/-- One structured log event as assembled by the middleware. -/
structure LogEvent where
  status : Int
  method : List Nat
  path : List Nat
  ip : List Nat
  userAgent : List Nat
  level : LogLevel
deriving DecidableEq

/-- Model of `loggingMiddleware` (logger.go lines 13-41): run the inner
handler, read the response status code, assemble the log event, and
pick the level with the Go `switch`: `statusCode >= 400 &&
statusCode < 500` → warn, `statusCode >= 500` → error, default →
debug.  Returns the final context and the emitted event. -/
def loggingMiddleware (req : LCtx → LCtx) (ctx : LCtx) : LCtx × LogEvent :=
  let ctx' := req ctx
  let statusCode := ctx'.statusCode
  let lvl :=
    if 400 ≤ statusCode ∧ statusCode < 500 then LogLevel.warn
    else if 500 ≤ statusCode then LogLevel.error
    else LogLevel.debug
  (ctx',
   { status := statusCode
     method := ctx'.method
     path := ctx'.requestURI
     ip := ctx'.remoteIP
     userAgent := ctx'.userAgent
     level := lvl })

/-- C9: the logging middleware chooses the log severity from the
response status code left by the inner handler: every status in
[400, 500) logs at warning level, every status at least 500 logs at
error level, and every other status logs at debug level; the logged
status is the response's status code. -/
theorem loggingMiddleware_severity (req : LCtx → LCtx) (ctx : LCtx) :
    ((400 ≤ (req ctx).statusCode ∧ (req ctx).statusCode < 500) →
        (loggingMiddleware req ctx).2.level = .warn) ∧
      (500 ≤ (req ctx).statusCode → (loggingMiddleware req ctx).2.level = .error) ∧
      ((req ctx).statusCode < 400 → (loggingMiddleware req ctx).2.level = .debug) ∧
      (loggingMiddleware req ctx).2.status = (req ctx).statusCode := by
  refine ⟨fun h => ?_, fun h => ?_, fun h => ?_, rfl⟩ <;>
    simp only [loggingMiddleware] <;>
    split <;> first | rfl | omega | (split <;> first | rfl | omega)

/-- Witness for C9 at statuses 404, 500 and 200 (a handler that writes
the status into an otherwise empty context). -/
theorem loggingMiddleware_severity_witness :
    (loggingMiddleware (fun c => { c with statusCode := 404 })
        ⟨[], [], [], [], 0⟩).2.level = .warn ∧
      (loggingMiddleware (fun c => { c with statusCode := 500 })
        ⟨[], [], [], [], 0⟩).2.level = .error ∧
      (loggingMiddleware (fun c => { c with statusCode := 200 })
        ⟨[], [], [], [], 0⟩).2.level = .debug :=
  ⟨(loggingMiddleware_severity (fun c => { c with statusCode := 404 })
      ⟨[], [], [], [], 0⟩).1 (by constructor <;> norm_num),
   (loggingMiddleware_severity (fun c => { c with statusCode := 500 })
      ⟨[], [], [], [], 0⟩).2.1 (by norm_num),
   ((loggingMiddleware_severity (fun c => { c with statusCode := 200 })
      ⟨[], [], [], [], 0⟩).2.2).1 (by norm_num)⟩

end Middleware

namespace Auth

/-! Model of `BasicAuth` (auth.go lines 15-34) together with the Go
standard library's `encoding/base64` standard encoding, which it calls.
The base64 model follows RFC 4648 / Go's `base64.StdEncoding`: encoding
pads with `=` to a multiple of four characters; decoding ignores CR and
LF bytes, rejects any other byte outside the alphabet, and accepts `=`
only as final-quantum padding. -/

/-- The standard base64 alphabet: byte for the sextet `n < 64`. -/
def sx (n : Nat) : Nat :=
  if n < 26 then 65 + n
  else if n < 52 then 97 + (n - 26)
  else if n < 62 then 48 + (n - 52)
  else if n = 62 then 43
  else 47

/-- Inverse alphabet lookup: sextet for an alphabet byte, `none` for a
byte outside the alphabet (including the padding byte `=` = 61). -/
def sxDec (c : Nat) : Option Nat :=
  if 65 ≤ c ∧ c ≤ 90 then some (c - 65)
  else if 97 ≤ c ∧ c ≤ 122 then some (26 + (c - 97))
  else if 48 ≤ c ∧ c ≤ 57 then some (52 + (c - 48))
  else if c = 43 then some 62
  else if c = 47 then some 63
  else none

/-- Go's `base64.StdEncoding` encoder on byte strings: three bytes to
four alphabet characters, with `=`-padding for a final quantum of one
or two bytes. -/
def encode64 : List Nat → List Nat
  | [] => []
  | [a] => [sx (a / 4), sx (a % 4 * 16), 61, 61]
  | [a, b] => [sx (a / 4), sx (a % 4 * 16 + b / 16), sx (b % 16 * 4), 61]
  | a :: b :: c :: rest =>
    sx (a / 4) :: sx (a % 4 * 16 + b / 16) :: sx (b % 16 * 4 + c / 64) :: sx (c % 64) ::
      encode64 rest

/-- Decoder for a stream of four-character quanta: `=` is accepted only
as padding of the last quantum, and any left-over of one to three
characters is rejected, as in Go's strict (non-Raw) decoding. -/
def decodeGroups : List Nat → Option (List Nat)
  | [] => some []
  | c1 :: c2 :: c3 :: c4 :: rest =>
    match sxDec c1, sxDec c2 with
    | some s1, some s2 =>
      if c3 = 61 then
        if c4 = 61 ∧ rest = [] then some [s1 * 4 + s2 / 16] else none
      else
        match sxDec c3 with
        | some s3 =>
          if c4 = 61 then
            if rest = [] then some [s1 * 4 + s2 / 16, s2 % 16 * 16 + s3 / 4] else none
          else
            match sxDec c4 with
            | some s4 =>
              (decodeGroups rest).map
                (fun ds =>
                  (s1 * 4 + s2 / 16) :: (s2 % 16 * 16 + s3 / 4) :: (s3 % 4 * 64 + s4) :: ds)
            | none => none
        | none => none
    | _, _ => none
  | _ => none

/-- Go's `base64.StdEncoding.Decode`: CR (13) and LF (10) are ignored,
then the input is decoded quantum by quantum; `none` stands for a
non-nil `CorruptInputError`. -/
def decode64 (s : List Nat) : Option (List Nat) :=
  decodeGroups (s.filter (fun c => decide (c ≠ 13 ∧ c ≠ 10)))

/-- Bytes of the literal "Basic " checked by `bytes.HasPrefix` in
auth.go line 17. -/
def basicTag : List Nat := [66, 97, 115, 105, 99, 32]

/-- Go's `base64.StdEncoding.DecodedLen(n) = n / 4 * 3`, the size of
the `dest` buffer allocated in auth.go line 21. -/
def decodedLen (n : Nat) : Nat := n / 4 * 3

/-- Model of `BasicAuth(payload)` (auth.go lines 15-34): check the
"Basic " marker; base64-decode the rest of the payload into a zeroed
buffer of `DecodedLen(len(payload))` bytes, `c` of which are written;
find the first colon (58) in the whole buffer with `bytes.Index`; on
success return `dest[:s]`, `dest[s+1:c]` and `true`; on any failure
return nil slices and `false`. -/
def goBasicAuth (payload : List Nat) : List Nat × List Nat × Bool :=
  if basicTag.isPrefixOf payload then
    match decode64 (payload.drop basicTag.length) with
    | none => ([], [], false)
    | some ds =>
      let dest := ds ++ List.replicate (decodedLen payload.length - ds.length) 0
      match Middleware.bytesIndex dest [58] with
      | none => ([], [], false)
      | some s => (dest.take s, (dest.take ds.length).drop (s + 1), true)
  else ([], [], false)

theorem sxDec_sx : ∀ n, n < 64 → sxDec (sx n) = some n := by decide

theorem sx_ne_special (n : Nat) : sx n ≠ 61 ∧ sx n ≠ 13 ∧ sx n ≠ 10 := by
  simp only [sx]
  split
  · omega
  · split
    · omega
    · split
      · omega
      · split <;> omega

theorem decodeGroups_encode64 :
    ∀ bs : List Nat, (∀ x ∈ bs, x < 256) → decodeGroups (encode64 bs) = some bs := by
  intro bs
  induction bs using encode64.induct with
  | case1 => intro _; rfl
  | case2 a =>
    intro h
    have ha : a < 256 := h a (by simp)
    have h1 : a / 4 < 64 := by omega
    have h2 : a % 4 * 16 < 64 := by omega
    simp only [encode64, decodeGroups, sxDec_sx _ h1, sxDec_sx _ h2]
    simp only [if_true, Option.some.injEq, List.cons.injEq, and_true]
    omega
  | case3 a b =>
    intro h
    have ha : a < 256 := h a (by simp)
    have hb : b < 256 := h b (by simp)
    have h1 : a / 4 < 64 := by omega
    have h2 : a % 4 * 16 + b / 16 < 64 := by omega
    have h3 : b % 16 * 4 < 64 := by omega
    simp only [encode64, decodeGroups, sxDec_sx _ h1, sxDec_sx _ h2, sxDec_sx _ h3]
    rw [if_neg (sx_ne_special (b % 16 * 4)).1]
    have e1 : a / 4 * 4 + (a % 4 * 16 + b / 16) / 16 = a := by omega
    have e2 : (a % 4 * 16 + b / 16) % 16 * 16 + b % 16 * 4 / 4 = b := by omega
    simp only [if_true, e1, e2]
  | case4 a b c rest ih =>
    intro h
    have ha : a < 256 := h a (by simp)
    have hb : b < 256 := h b (by simp)
    have hc : c < 256 := h c (by simp)
    have h1 : a / 4 < 64 := by omega
    have h2 : a % 4 * 16 + b / 16 < 64 := by omega
    have h3 : b % 16 * 4 + c / 64 < 64 := by omega
    have h4 : c % 64 < 64 := by omega
    have hrest : ∀ x ∈ rest, x < 256 := fun x hx => h x (by simp [hx])
    simp only [encode64, decodeGroups, sxDec_sx _ h1, sxDec_sx _ h2]
    rw [if_neg (sx_ne_special (b % 16 * 4 + c / 64)).1]
    simp only [sxDec_sx _ h3]
    rw [if_neg (sx_ne_special (c % 64)).1]
    simp only [sxDec_sx _ h4, ih hrest, Option.map_some]
    have e1 : a / 4 * 4 + (a % 4 * 16 + b / 16) / 16 = a := by omega
    have e2 : (a % 4 * 16 + b / 16) % 16 * 16 + (b % 16 * 4 + c / 64) / 4 = b := by omega
    have e3 : (b % 16 * 4 + c / 64) % 4 * 64 + c % 64 = c := by omega
    simp [e1, e2, e3]

theorem encode64_no_crlf :
    ∀ bs : List Nat, ∀ y ∈ encode64 bs, y ≠ 13 ∧ y ≠ 10 := by
  intro bs
  induction bs using encode64.induct with
  | case1 => intro y hy; simp [encode64] at hy
  | case2 a =>
    intro y hy
    simp only [encode64, List.mem_cons, List.mem_singleton, List.not_mem_nil, or_false] at hy
    rcases hy with rfl | rfl | rfl | rfl
    · exact ⟨(sx_ne_special _).2.1, (sx_ne_special _).2.2⟩
    · exact ⟨(sx_ne_special _).2.1, (sx_ne_special _).2.2⟩
    · omega
    · omega
  | case3 a b =>
    intro y hy
    simp only [encode64, List.mem_cons, List.mem_singleton, List.not_mem_nil, or_false] at hy
    rcases hy with rfl | rfl | rfl | rfl
    · exact ⟨(sx_ne_special _).2.1, (sx_ne_special _).2.2⟩
    · exact ⟨(sx_ne_special _).2.1, (sx_ne_special _).2.2⟩
    · exact ⟨(sx_ne_special _).2.1, (sx_ne_special _).2.2⟩
    · omega
  | case4 a b c rest ih =>
    intro y hy
    simp only [encode64, List.mem_cons] at hy
    rcases hy with rfl | rfl | rfl | rfl | hy
    · exact ⟨(sx_ne_special _).2.1, (sx_ne_special _).2.2⟩
    · exact ⟨(sx_ne_special _).2.1, (sx_ne_special _).2.2⟩
    · exact ⟨(sx_ne_special _).2.1, (sx_ne_special _).2.2⟩
    · exact ⟨(sx_ne_special _).2.1, (sx_ne_special _).2.2⟩
    · exact ih y hy

theorem decode64_encode64 (bs : List Nat) (h : ∀ x ∈ bs, x < 256) :
    decode64 (encode64 bs) = some bs := by
  have hf : (encode64 bs).filter (fun c => decide (c ≠ 13 ∧ c ≠ 10)) = encode64 bs := by
    rw [List.filter_eq_self]
    intro y hy
    simpa using encode64_no_crlf bs y hy
  rw [decode64, hf]
  exact decodeGroups_encode64 bs h

theorem bytesIndexAux_singleton_not_mem (c : Nat) :
    ∀ l : List Nat, c ∉ l → Middleware.bytesIndexAux [c] l = none := by
  intro l
  induction l with
  | nil => intro _; rfl
  | cons a t ih =>
    intro h
    rw [List.mem_cons, not_or] at h
    have hp : ([c].isPrefixOf (a :: t)) = false := by
      simp [List.isPrefixOf, h.1]
    simp [Middleware.bytesIndexAux, hp, ih h.2]

theorem bytesIndexAux_singleton_append (c : Nat) (l₂ : List Nat) :
    ∀ l₁ : List Nat, c ∉ l₁ →
      Middleware.bytesIndexAux [c] (l₁ ++ l₂) =
        (Middleware.bytesIndexAux [c] l₂).map (· + l₁.length) := by
  intro l₁
  induction l₁ with
  | nil =>
    intro _
    simp only [List.nil_append, List.length_nil]
    cases Middleware.bytesIndexAux [c] l₂ <;> simp
  | cons a t ih =>
    intro h
    rw [List.mem_cons, not_or] at h
    have hp : ([c].isPrefixOf (a :: (t ++ l₂))) = false := by
      simp [List.isPrefixOf, h.1]
    rw [List.cons_append]
    simp only [Middleware.bytesIndexAux, hp, Bool.false_eq_true, if_false, ih h.2]
    cases Middleware.bytesIndexAux [c] l₂ <;> (simp; try omega)

theorem bytesIndexAux_singleton_head (c : Nat) (t : List Nat) :
    Middleware.bytesIndexAux [c] (c :: t) = some 0 := by
  simp [Middleware.bytesIndexAux, List.isPrefixOf]

theorem basicTag_isPrefixOf_append (l : List Nat) :
    basicTag.isPrefixOf (basicTag ++ l) = true := by
  simp [basicTag, List.isPrefixOf]

/-- C10: BasicAuth's contract.  Positive direction: for every username
byte string without a colon and every password byte string, applying
`BasicAuth` to "Basic " followed by the standard base64 encoding of
`username ++ ":" ++ password` returns that username, that password and
`exist = true`.  Negative direction: a payload not starting with
"Basic ", a payload whose suffix fails base64 decoding, and a payload
whose decoded bytes contain no colon all return `exist = false` (with
nil username and password). -/
theorem goBasicAuth_spec :
    (∀ u p : List Nat, (∀ x ∈ u, x < 256) → (∀ x ∈ p, x < 256) → 58 ∉ u →
      goBasicAuth (basicTag ++ encode64 (u ++ 58 :: p)) = (u, p, true)) ∧
    (∀ payload : List Nat, ¬ basicTag <+: payload →
      goBasicAuth payload = ([], [], false)) ∧
    (∀ payload : List Nat, decode64 (payload.drop basicTag.length) = none →
      goBasicAuth payload = ([], [], false)) ∧
    (∀ payload ds : List Nat, decode64 (payload.drop basicTag.length) = some ds →
      58 ∉ ds → goBasicAuth payload = ([], [], false)) := by
  refine ⟨?_, ?_, ?_, ?_⟩
  · intro u p hu hp hnc
    have hds : ∀ x ∈ u ++ 58 :: p, x < 256 := by
      intro x hx
      rcases List.mem_append.1 hx with hx | hx
      · exact hu x hx
      · rcases List.mem_cons.1 hx with rfl | hx
        · omega
        · exact hp x hx
    have hdrop : (basicTag ++ encode64 (u ++ 58 :: p)).drop basicTag.length =
        encode64 (u ++ 58 :: p) := List.drop_left _ _
    rw [goBasicAuth, if_pos (basicTag_isPrefixOf_append _), hdrop,
      decode64_encode64 _ hds]
    have hzero : (58 : Nat) ∉
        List.replicate (decodedLen (basicTag ++ encode64 (u ++ 58 :: p)).length -
          (u ++ 58 :: p).length) 0 := by
      intro hmem
      have := List.eq_of_mem_replicate hmem
      omega
    have hfind : Middleware.bytesIndex
        ((u ++ 58 :: p) ++
          List.replicate (decodedLen (basicTag ++ encode64 (u ++ 58 :: p)).length -
            (u ++ 58 :: p).length) 0) [58] = some u.length := by
      rw [Middleware.bytesIndex, List.append_assoc, List.cons_append,
        bytesIndexAux_singleton_append 58 _ u hnc, bytesIndexAux_singleton_head]
      simp
    dsimp only
    rw [hfind]
    have htake : ((u ++ 58 :: p) ++
        List.replicate (decodedLen (basicTag ++ encode64 (u ++ 58 :: p)).length -
          (u ++ 58 :: p).length) 0).take (u ++ 58 :: p).length = u ++ 58 :: p :=
      List.take_left _ _
    have htakeu : ((u ++ 58 :: p) ++
        List.replicate (decodedLen (basicTag ++ encode64 (u ++ 58 :: p)).length -
          (u ++ 58 :: p).length) 0).take u.length = u := by
      rw [List.append_assoc]
      have : (u ++ (58 :: p ++
          List.replicate (decodedLen (basicTag ++ encode64 (u ++ 58 :: p)).length -
            (u ++ 58 :: p).length) 0)).take u.length = u := List.take_left _ _
      simp only [List.cons_append] at this
      exact this
    have hdropp : (u ++ 58 :: p).drop (u.length + 1) = p := by
      rw [List.append_cons]
      have hlen : (u ++ [58]).length = u.length + 1 := by simp
      calc ((u ++ [58]) ++ p).drop (u.length + 1)
        = ((u ++ [58]) ++ p).drop (u ++ [58]).length := by rw [hlen]
        _ = p := List.drop_left _ _
    simp only [htake, htakeu, hdropp]
  · intro payload hnp
    have hb : basicTag.isPrefixOf payload = false := by
      rw [← Bool.not_eq_true, List.isPrefixOf_iff_prefix]
      exact hnp
    simp [goBasicAuth, hb]
  · intro payload hdec
    rw [goBasicAuth]
    split
    · rw [hdec]
    · rfl
  · intro payload ds hdec hnc
    rw [goBasicAuth]
    split
    · rw [hdec]
      have hzero : (58 : Nat) ∉
          List.replicate (decodedLen payload.length - ds.length) 0 := by
        intro hmem
        have := List.eq_of_mem_replicate hmem
        omega
      have hnone : Middleware.bytesIndex
          (ds ++ List.replicate (decodedLen payload.length - ds.length) 0) [58] = none := by
        rw [Middleware.bytesIndex]
        refine bytesIndexAux_singleton_not_mem 58 _ ?_
        intro hmem
        rcases List.mem_append.1 hmem with hmem | hmem
        · exact hnc hmem
        · exact hzero hmem
      dsimp only
      rw [hnone]
    · rfl

/-- Witness for C10: username "usr", password "pw" (bytes), a payload
with a bad marker, a payload whose base64 part is corrupt, and a
payload decoding to colon-free bytes. -/
theorem goBasicAuth_spec_witness :
    goBasicAuth (basicTag ++ encode64 ([117, 115, 114] ++ 58 :: [112, 119])) =
        ([117, 115, 114], [112, 119], true) ∧
      goBasicAuth [66, 97, 100] = ([], [], false) ∧
      goBasicAuth (basicTag ++ [33]) = ([], [], false) ∧
      goBasicAuth (basicTag ++ encode64 [97, 98, 99]) = ([], [], false) :=
  ⟨goBasicAuth_spec.1 [117, 115, 114] [112, 119] (by decide) (by decide) (by decide),
   goBasicAuth_spec.2.1 [66, 97, 100] (by decide),
   goBasicAuth_spec.2.2.1 (basicTag ++ [33]) (by decide),
   goBasicAuth_spec.2.2.2 (basicTag ++ encode64 [97, 98, 99]) [97, 98, 99]
     (by decide) (by decide)⟩

end Auth

end HttpGo
